import Mathlib

/-!
Shallow embedding of `tt_tools_common/reset_common/bh_reset.py` (class
`BHChipReset`): the raw reset-command issuer (`reset_device_ioctl`) and the
reset orchestrator (`full_lds_reset`).

Modelling decisions:
* Byte buffers are `List Nat` of byte values; `struct.pack`/`struct.unpack`
  with format "I" are explicit little-endian 32-bit encodes/decodes
  (values reduced mod 2^32 where Python would overflow-check).
* The kernel side of `fcntl.ioctl` is an environment function
  `kernel : interface → code → buffer → buffer` (the ioctl mutates the
  caller's buffer in place; we model the post-call buffer as its result).
* `full_lds_reset` is modelled as a state machine over an `Env` describing
  the host platform, the per-device config-space read results, and the
  wall clock; it produces an event trace recording every externally visible
  action (BDF resolution, ioctl commands, config-space opens/reads, sleeps,
  classification messages, handle construction), so ordering and counting
  claims are statements about the trace.
* Wall-clock time is `ℚ` (seconds). `elapsedAt r` is the value of
  `time.time() - start_time` computed at the end of poll round `r`; the
  `while` loop is given explicit fuel, with termination under a
  clock-progress hypothesis proved separately.
* Python `dict`s keyed by interface id are association lists updated in
  place; `list(set(...))` (iteration order unspecified in Python) is
  `List.dedup`; every claim proved below is independent of that order.
-/

namespace BHReset

/-- `struct.pack("I", v)`: four little-endian bytes of `v mod 2^32`. -/
def packU32LE (v : Nat) : List Nat :=
  [v % 256, v / 256 % 256, v / 256 ^ 2 % 256, v / 256 ^ 3 % 256]

/-- `struct.pack("IIII", a, b, c, d)`. -/
def packIIII (a b c d : Nat) : List Nat :=
  packU32LE a ++ packU32LE b ++ packU32LE c ++ packU32LE d

/-- `struct.unpack("I", _)` on the first four bytes of a list. -/
def unpackU32LE : List Nat → Nat
  | b0 :: b1 :: b2 :: b3 :: _ => b0 + 256 * b1 + 256 ^ 2 * b2 + 256 ^ 3 * b3
  | _ => 0

/-- `struct.unpack("II", bs)`: requires exactly 8 bytes (Python raises
`struct.error` otherwise, modelled as `none`). -/
def unpackII (bs : List Nat) : Option (Nat × Nat) :=
  if bs.length = 8 then some (unpackU32LE (bs.take 4), unpackU32LE (bs.drop 4))
  else none

def TENSTORRENT_IOCTL_MAGIC : Nat := 0xFA

def TENSTORRENT_IOCTL_RESET_DEVICE : Nat := (TENSTORRENT_IOCTL_MAGIC <<< 8) ||| 6

def TENSTORRENT_RESET_DEVICE_RESTORE_STATE : Nat := 0

def TENSTORRENT_RESET_DEVICE_RESET_PCIE_LINK : Nat := 1

def TENSTORRENT_RESET_DEVICE_CONFIG_WRITE : Nat := 2

/-- `struct.calcsize("II")`. -/
def calcsizeII : Nat := 8

/-- `BHChipReset.reset_device_ioctl`, with the kernel's in-place buffer
mutation modelled by `kernel interface_id code buffer = buffer after call`.
Packs `(output_size_bytes, flags, 0, 0)`, invokes the ioctl, then unpacks
the two output fields `_, result` from the tail of the buffer and returns
`result == 0`.  `none` models a `struct.error` on unpacking a tail of the
wrong size (impossible for a length-preserving kernel). -/
def reset_device_ioctl (kernel : Nat → Nat → List Nat → List Nat)
    (interface_id flags : Nat) : Option Bool :=
  let input_size_bytes := calcsizeII
  let output_size_bytes := calcsizeII
  let reset_device_buf := packIIII output_size_bytes flags 0 0
  let buf := kernel interface_id TENSTORRENT_IOCTL_RESET_DEVICE reset_device_buf
  let output_buf := buf.drop input_size_bytes
  match unpackII output_buf with
  | some (_, result) => some (result == 0)
  | none => none

example : reset_device_ioctl (fun _ _ buf => buf) 0 2 = some true := by decide

example : reset_device_ioctl (fun _ _ _ => packIIII 8 5 1 0) 0 5 = some true := by
  decide

example : reset_device_ioctl (fun _ _ _ => packIIII 8 5 0 1) 0 5 = some false := by
  decide

/-- `BHChipReset.POST_RESET_MSG_WAIT_TIME` (seconds). -/
def POST_RESET_MSG_WAIT_TIME : ℚ := 2

/-- Externally visible actions of `full_lds_reset`, in program order. -/
inductive Event where
  /-- `PciChip(pci_interface=i).get_pci_bdf()` -/
  | resolveBDF : Nat → Event
  /-- `reset_device_ioctl(i, flags)` -/
  | ioctl : (i : Nat) → (flags : Nat) → Event
  /-- `open(f"/sys/bus/pci/devices/\x7bbdf\x7d/config", "rb")` for device `i` -/
  | openCfg : Nat → Event
  /-- `os.pread(fd_of_device_i, count, offset)` -/
  | readCfg : (i : Nat) → (count : Nat) → (offset : Nat) → Event
  /-- `time.sleep(0.001)` -/
  | sleepMs : Event
  /-- the per-device completed / not-completed diagnostic (`true` = completed) -/
  | classify : Nat → Bool → Event
  /-- `PciChip(pci_interface=i)` built for the returned list -/
  | mkHandle : Nat → Event
deriving DecidableEq, Repr

/-- The environment `full_lds_reset` runs against: host platform string,
BDF resolution, the bytes each `os.pread(fd, count, offset)` returns on poll
round `r` for device `i`, the wall clock, and the (discarded) per-command
ioctl results. -/
structure Env where
  platform : String
  bdf : Nat → String
  pread : (i : Nat) → (round : Nat) → (count : Nat) → (offset : Nat) → List Nat
  /-- value of `time.time() - start_time` computed at the end of round `r` -/
  elapsedAt : Nat → ℚ
  /-- result of `reset_device_ioctl(i, flags)`, discarded by the orchestrator -/
  ioctlResult : Nat → Nat → Bool

/-- `int.from_bytes(bytes, byteorder="little")`. -/
def intFromBytesLE : List Nat → Nat
  | [] => 0
  | b :: bs => b + 256 * intFromBytesLE bs

/-- One sample: `(int.from_bytes(os.pread(fd, 1, 4), "little") >> 1) & 1`,
the bit the poll loop stores for device `i` on round `r`. -/
def readBit (env : Env) (i r : Nat) : Nat :=
  (intFromBytesLE (env.pread i r 1 4) >>> 1) &&& 1

/-- Python `dict` assignment `m[k] = v` on an association list (insertion
order preserved; appends if the key is absent). -/
def updateEntry : List (Nat × Nat) → Nat → Nat → List (Nat × Nat)
  | [], k, v => [(k, v)]
  | (k', v') :: rest, k, v =>
      if k' = k then (k, v) :: rest else (k', v') :: updateEntry rest k v

/-- Python `dict` read `m[k]` (first entry with key `k`); every read below
is at an initialized key, so the default `1` (the initial bit value) is
never observed. -/
def lookupBit : List (Nat × Nat) → Nat → Nat
  | [], _ => 1
  | (k', v') :: rest, k => if k' = k then v' else lookupBit rest k

/-- The inner `for pci_interface, file in files_map.items():` body of one
poll round `r`: overwrite every device's entry with its fresh sample. -/
def sampleAll (env : Env) (devs : List Nat) (r : Nat)
    (bm : List (Nat × Nat)) : List (Nat × Nat) :=
  devs.foldl (fun m i => updateEntry m i (readBit env i r)) bm

/-- The value `elapsed` holds when the `while` condition is tested before
round `r`: `0` before round 0 (set just before the loop), and the clock
reading taken at the end of round `r - 1` afterwards. -/
def elapsedBefore (env : Env) : Nat → ℚ
  | 0 => 0
  | r + 1 => env.elapsedAt r

/-- The `while elapsed < self.POST_RESET_MSG_WAIT_TIME:` poll loop, given
explicit fuel (`none` = fuel exhausted; adequacy of any fuel above the
round count forced by the clock is proved below).  `completed` is the value
of the Python variable of that name, which is assigned `0` before the loop
and never reassigned inside it.  Returns the final bit map, the index one
past the last executed round, whether the `break` was taken, and the trace
of reads and sleeps. -/
def pollLoop (env : Env) (devs : List Nat) (completed : Nat) :
    Nat → Nat → List (Nat × Nat) →
    Option (List (Nat × Nat) × Nat × Bool × List Event)
  | 0, _, _ => none
  | fuel + 1, r, bm =>
    if elapsedBefore env r < POST_RESET_MSG_WAIT_TIME then
      let bm2 := sampleAll env devs r bm
      let evs := devs.map (fun i => Event.readCfg i 1 4)
      if completed = devs.length then
        some (bm2, r + 1, true, evs)
      else
        match pollLoop env devs completed fuel (r + 1) bm2 with
        | none => none
        | some (bmf, rounds, early, evs2) =>
            some (bmf, rounds, early, evs ++ Event.sleepMs :: evs2)
    else
      some (bm, r, false, [])

/-- Python `s.startswith(pre)`: `pre`'s characters are a prefix of `s`'s. -/
def pyStartsWith (s pre : String) : Bool :=
  pre.data.isPrefixOf s.data

/-- Whether `full_lds_reset` bails out for an ARM host:
`platform.startswith("arm") or platform.startswith("aarch")`. -/
def isArmPlatform (p : String) : Bool :=
  pyStartsWith p "arm" || pyStartsWith p "aarch"

/-- The fatal exit taken on ARM hosts (`sys.exit(1)`). -/
inductive ResetError where
  | UnsupportedPlatform : ResetError
deriving DecidableEq, Repr

/-- `BHChipReset.full_lds_reset(pci_interfaces)`, returning the result
(device handles are identified by their interface id) paired with the event
trace.  `List.dedup` stands for Python's `list(set(...))`, whose iteration
order is unspecified; no theorem below depends on the order chosen. -/
def full_lds_reset (env : Env) (pci_interfaces : List Nat) (fuel : Nat) :
    Option (Except ResetError (List Nat) × List Event) :=
  if isArmPlatform env.platform then
    some (.error .UnsupportedPlatform, [])
  else
    let devs := pci_interfaces.dedup
    let bdfEvents := devs.flatMap
      (fun i => [Event.resolveBDF i, Event.ioctl i TENSTORRENT_RESET_DEVICE_CONFIG_WRITE])
    let openEvents := devs.map Event.openCfg
    let bm0 := devs.map (fun i => (i, 1))
    match pollLoop env devs 0 fuel 0 bm0 with
    | none => none
    | some (bm, _, _, pollEvents) =>
      let classifyEvents := devs.map (fun i => Event.classify i (lookupBit bm i == 0))
      let restoreEvents := devs.map
        (fun i => Event.ioctl i TENSTORRENT_RESET_DEVICE_RESTORE_STATE)
      let handleEvents := devs.map Event.mkHandle
      some (.ok devs,
        bdfEvents ++ openEvents ++ pollEvents ++ classifyEvents ++
          restoreEvents ++ handleEvents)

/-! ### Observers used to state the claims -/

/-- The third 32-bit field of a 16-byte command buffer (bytes 8–11): the
first of the two output fields. -/
def thirdField (buf : List Nat) : Nat := unpackU32LE (buf.drop 8)

/-- The fourth 32-bit field of a 16-byte command buffer (bytes 12–15): the
second of the two output fields, the one `reset_device_ioctl` binds to
`result`. -/
def fourthField (buf : List Nat) : Nat := unpackU32LE (buf.drop 12)

instance {ε α : Type} [DecidableEq ε] [DecidableEq α] :
    DecidableEq (Except ε α) := fun a b =>
  match a, b with
  | .ok x, .ok y => decidable_of_iff (x = y) (by simp)
  | .error x, .error y => decidable_of_iff (x = y) (by simp)
  | .ok _, .error _ => isFalse (by simp)
  | .error _, .ok _ => isFalse (by simp)

/-- Trace component of a `full_lds_reset` outcome (empty if none). -/
def traceOf : Option (Except ResetError (List Nat) × List Event) → List Event
  | some (_, t) => t
  | none => []

/-- Result component of a `full_lds_reset` outcome. -/
def resultOf : Option (Except ResetError (List Nat) × List Event) →
    Option (Except ResetError (List Nat))
  | some (res, _) => some res
  | none => none

def eventIsResolve : Event → Bool
  | .resolveBDF _ => true
  | _ => false

def eventIsConfigWrite : Event → Bool
  | .ioctl _ flags => flags == TENSTORRENT_RESET_DEVICE_CONFIG_WRITE
  | _ => false

def eventIsRestore : Event → Bool
  | .ioctl _ flags => flags == TENSTORRENT_RESET_DEVICE_RESTORE_STATE
  | _ => false

def eventIsRead : Event → Bool
  | .readCfg _ _ _ => true
  | _ => false

def eventIsClassifyFor (i : Nat) : Event → Bool
  | .classify j _ => j == i
  | _ => false

/-- The stage an event belongs to, in the orchestrator's program order:
0 = BDF resolution / config-write commands, 1 = config-space opens,
2 = poll reads and sleeps, 3 = classification, 4 = restore commands,
5 = handle construction. -/
def stageOf : Event → Nat
  | .resolveBDF _ => 0
  | .ioctl _ flags => if flags = TENSTORRENT_RESET_DEVICE_CONFIG_WRITE then 0 else 4
  | .openCfg _ => 1
  | .readCfg _ _ _ => 2
  | .sleepMs => 2
  | .classify _ _ => 3
  | .mkHandle _ => 5

/-- C5's claimed batch-wide barrier between BDF resolution and the
config-write commands: every resolution precedes every config-write. -/
def BdfBarrier (trace : List Event) : Prop :=
  ∀ i j : Fin trace.length,
    eventIsResolve (trace.get i) → eventIsConfigWrite (trace.get j) →
      i.val < j.val

instance (trace : List Event) : Decidable (BdfBarrier trace) := by
  unfold BdfBarrier
  infer_instance

/-- A test environment: x86 host, device bits as given by `bits`, the clock
jumping past the timeout after round `n` (so exactly `n + 1` poll rounds
run). -/
def testEnv (bits : Nat → Nat → Nat) (n : Nat) : Env where
  platform := "x86_64"
  bdf := fun i => s!"0000:0{i}:00.0"
  pread := fun i r _ _ => [2 * bits i r]
  elapsedAt := fun r => if r < n then 1 else 3
  ioctlResult := fun _ _ => true

example :
    pollLoop (testEnv (fun _ _ => 1) 0) [3] 0 2 0 [(3, 1)] =
      some ([(3, 1)], 1, false, [.readCfg 3 1 4, .sleepMs]) := by decide

example :
    pollLoop (testEnv (fun _ r => if r = 0 then 0 else 1) 1) [3] 0 3 0 [(3, 1)] =
      some ([(3, 1)], 2, false,
        [.readCfg 3 1 4, .sleepMs, .readCfg 3 1 4, .sleepMs]) := by decide

example :
    full_lds_reset (testEnv (fun _ _ => 1) 0) [] 1 = some (.ok [], []) := by decide

/-! ### Packing / unpacking lemmas -/

theorem packU32LE_length (v : Nat) : (packU32LE v).length = 4 := rfl

theorem unpackU32LE_packU32LE_append (v : Nat) (rest : List Nat) :
    unpackU32LE (packU32LE v ++ rest) = v % 2 ^ 32 := by
  simp [packU32LE, unpackU32LE]
  omega

theorem packIIII_length (a b c d : Nat) : (packIIII a b c d).length = 16 := by
  simp [packIIII, packU32LE]

/-- `reset_device_ioctl`, unfolded: the kernel is invoked at code
`TENSTORRENT_IOCTL_RESET_DEVICE` on the packed buffer
`(calcsizeII, flags, 0, 0)`, and the returned Boolean compares the second
output field with zero. -/
theorem reset_device_ioctl_eq (kernel : Nat → Nat → List Nat → List Nat)
    (i f : Nat) :
    reset_device_ioctl kernel i f =
      (unpackII ((kernel i TENSTORRENT_IOCTL_RESET_DEVICE
          (packIIII calcsizeII f 0 0)).drop calcsizeII)).map
        (fun out => out.2 == 0) := by
  cases h : unpackII ((kernel i TENSTORRENT_IOCTL_RESET_DEVICE
      (packIIII calcsizeII f 0 0)).drop calcsizeII) with
  | none => simp [reset_device_ioctl, h]
  | some out => cases out with
    | mk a b => simp [reset_device_ioctl, h]

/-! ### C1 -/

/-- C1, counterexample: the claim says the success Boolean is determined by
the third 32-bit field of the buffer (the first output field); but on a
simulated kernel response `(8, 5, 1, 0)` — third field 1, fourth field 0 —
`reset_device_ioctl` returns `true`, while the claim, reading the non-zero
third field as the result code, predicts `false`. -/
theorem C1_third_field_refuted :
    thirdField (packIIII 8 5 1 0) ≠ 0 ∧
    reset_device_ioctl (fun _ _ _ => packIIII 8 5 1 0) 0 5 = some true := by
  decide

/-- C1, amended: `reset_device_ioctl` packs the command buffer as four
little-endian 32-bit fields `(output_buffer_size = 8, flags, 0, 0)`,
invokes the device-control call with code `(0xFA <<< 8) ||| 6`, and returns
true if and only if the result code — the FOURTH 32-bit field of the
buffer, i.e. the SECOND of the two output fields — equals zero after the
call; a simulated kernel response `(8, F, 0, 0)` yields true, and any
response whose fourth field is non-zero yields false. -/
theorem C1_result_is_fourth_field :
    TENSTORRENT_IOCTL_RESET_DEVICE = (0xFA <<< 8) ||| 6 ∧
    calcsizeII = 8 ∧
    (∀ kernel i f,
      reset_device_ioctl kernel i f =
        (unpackII ((kernel i TENSTORRENT_IOCTL_RESET_DEVICE
            (packIIII 8 f 0 0)).drop 8)).map (fun out => out.2 == 0)) ∧
    (∀ kernel i f,
      (kernel i TENSTORRENT_IOCTL_RESET_DEVICE (packIIII 8 f 0 0)).length = 16 →
      reset_device_ioctl kernel i f =
        some (fourthField
          (kernel i TENSTORRENT_IOCTL_RESET_DEVICE (packIIII 8 f 0 0)) == 0)) ∧
    (∀ i f, reset_device_ioctl (fun _ _ _ => packIIII 8 f 0 0) i f = some true) ∧
    (∀ i f r, r % 2 ^ 32 ≠ 0 →
      reset_device_ioctl (fun _ _ _ => packIIII 8 f 0 r) i f = some false) := by
  refine ⟨rfl, rfl, ?_, ?_, ?_, ?_⟩
  · intro kernel i f
    exact reset_device_ioctl_eq kernel i f
  · intro kernel i f hlen
    rw [reset_device_ioctl_eq]
    have hdrop : ((kernel i TENSTORRENT_IOCTL_RESET_DEVICE
        (packIIII 8 f 0 0)).drop 8).length = 8 := by
      simp [hlen]
    simp [unpackII, hdrop, fourthField, List.drop_drop, calcsizeII]
  · intro i f
    rw [reset_device_ioctl_eq]
    simp [calcsizeII, packIIII, packU32LE, unpackII, unpackU32LE]
  · intro i f r hr
    rw [reset_device_ioctl_eq]
    simp [calcsizeII, packIIII, packU32LE, unpackII, unpackU32LE]
    omega

/-- C1, witness: the amended theorem applied at a concrete kernel response
`(8, 7, 0, 5)` — well-formed length, result decided by the fourth field,
and a non-zero fourth field yielding `false`. -/
theorem C1_result_is_fourth_field_spot :
    ((fun (_ _ : Nat) (_ : List Nat) => packIIII 8 7 0 5) 1
        TENSTORRENT_IOCTL_RESET_DEVICE (packIIII 8 7 0 0)).length = 16 ∧
    reset_device_ioctl (fun _ _ _ => packIIII 8 7 0 5) 1 7 =
      some (fourthField (packIIII 8 7 0 5) == 0) ∧
    (5 : Nat) % 2 ^ 32 ≠ 0 ∧
    reset_device_ioctl (fun _ _ _ => packIIII 8 7 0 5) 1 7 = some false :=
  ⟨by decide,
   C1_result_is_fourth_field.2.2.2.1 (fun _ _ _ => packIIII 8 7 0 5) 1 7
     (by decide),
   by decide,
   C1_result_is_fourth_field.2.2.2.2.2 1 7 5 (by decide)⟩

/-! ### Association-list (Python dict) lemmas -/

theorem lookupBit_updateEntry (m : List (Nat × Nat)) (k v j : Nat) :
    lookupBit (updateEntry m k v) j = if j = k then v else lookupBit m j := by
  induction m with
  | nil =>
      by_cases h : j = k <;> simp [updateEntry, lookupBit, h, Ne.symm]
  | cons p rest ih =>
      obtain ⟨k', v'⟩ := p
      by_cases hk : k' = k
      · subst hk
        by_cases hj : j = k'
        · simp [updateEntry, lookupBit, hj]
        · have hkj : k' ≠ j := fun h => hj h.symm
          simp [updateEntry, lookupBit, hj, hkj]
      · by_cases hj : j = k'
        · subst hj
          simp [updateEntry, hk, lookupBit]
        · have hkj : k' ≠ j := fun h => hj h.symm
          simp [updateEntry, hk, lookupBit, hkj, ih]

theorem keys_updateEntry (m : List (Nat × Nat)) (k v : Nat)
    (h : k ∈ m.map Prod.fst) :
    (updateEntry m k v).map Prod.fst = m.map Prod.fst := by
  induction m with
  | nil => simp at h
  | cons p rest ih =>
      obtain ⟨k', v'⟩ := p
      by_cases hk : k' = k
      · subst hk
        simp [updateEntry]
      · simp only [List.map_cons, List.mem_cons] at h
        rcases h with h | h
        · exact absurd h.symm hk
        · simp [updateEntry, hk, ih h]

/-! ### Poll-round lemmas -/

theorem sampleAll_nil (env : Env) (r : Nat) (bm : List (Nat × Nat)) :
    sampleAll env [] r bm = bm := rfl

theorem sampleAll_cons (env : Env) (i : Nat) (rest : List Nat) (r : Nat)
    (bm : List (Nat × Nat)) :
    sampleAll env (i :: rest) r bm =
      sampleAll env rest r (updateEntry bm i (readBit env i r)) := rfl

theorem lookupBit_sampleAll (env : Env) (devs : List Nat) (r j : Nat) :
    ∀ bm, lookupBit (sampleAll env devs r bm) j =
      if j ∈ devs then readBit env j r else lookupBit bm j := by
  induction devs with
  | nil => intro bm; simp [sampleAll]
  | cons i rest ih =>
      intro bm
      rw [sampleAll_cons, ih]
      by_cases hj : j ∈ rest
      · simp [hj]
      · by_cases hji : j = i
        · simp [hj, hji, lookupBit_updateEntry]
        · simp [hj, hji, lookupBit_updateEntry]

theorem keys_sampleAll (env : Env) (devs : List Nat) (r : Nat) :
    ∀ bm, (∀ i ∈ devs, i ∈ bm.map Prod.fst) →
      (sampleAll env devs r bm).map Prod.fst = bm.map Prod.fst := by
  induction devs with
  | nil => intro bm _; rfl
  | cons i rest ih =>
      intro bm hmem
      rw [sampleAll_cons]
      have hkeys := keys_updateEntry bm i (readBit env i r) (hmem i (by simp))
      rw [ih (updateEntry bm i (readBit env i r))
        (fun j hj => by rw [hkeys]; exact hmem j (by simp [hj])), hkeys]

/-! ### Poll-loop lemmas -/

/-- The loop exits either by the `break` (possible only when the frozen
`completed` counter equals the device count) or because the elapsed time
reached the timeout at the final condition check. -/
theorem pollLoop_exit (env : Env) (devs : List Nat) (c : Nat) :
    ∀ fuel r bm bmf R early evs,
      pollLoop env devs c fuel r bm = some (bmf, R, early, evs) →
      (early = true ∧ c = devs.length) ∨
        (early = false ∧ POST_RESET_MSG_WAIT_TIME ≤ elapsedBefore env R) := by
  intro fuel
  induction fuel with
  | zero => intro r bm bmf R early evs h; simp [pollLoop] at h
  | succ fuel ih =>
      intro r bm bmf R early evs h
      rw [pollLoop] at h
      by_cases htime : elapsedBefore env r < POST_RESET_MSG_WAIT_TIME
      · rw [if_pos htime] at h
        by_cases hc : c = devs.length
        · rw [if_pos hc] at h
          simp only [Option.some.injEq, Prod.mk.injEq] at h
          obtain ⟨h1, h2, h3, h4⟩ := h
          exact Or.inl ⟨h3.symm, hc⟩
        · rw [if_neg hc] at h
          cases hrec : pollLoop env devs c fuel (r + 1)
              (sampleAll env devs r bm) with
          | none => rw [hrec] at h; exact absurd h (by simp)
          | some res =>
              obtain ⟨bmf', R', early', evs'⟩ := res
              rw [hrec] at h
              simp only [Option.some.injEq, Prod.mk.injEq] at h
              obtain ⟨h1, h2, h3, h4⟩ := h
              rcases ih (r + 1) (sampleAll env devs r bm) bmf' R' early' evs'
                  hrec with hbrk | hto
              · exact absurd hbrk.2 hc
              · exact Or.inr ⟨h3 ▸ hto.1, h2 ▸ hto.2⟩
      · rw [if_neg htime] at h
        simp only [Option.some.injEq, Prod.mk.injEq] at h
        obtain ⟨-, h2, h3, -⟩ := h
        exact Or.inr ⟨h3.symm, h2 ▸ le_of_not_lt htime⟩

/-- Round indices only grow, and every round that was actually entered had
its entry condition `elapsed < timeout` hold. -/
theorem pollLoop_bounds (env : Env) (devs : List Nat) (c : Nat) :
    ∀ fuel r bm bmf R early evs,
      pollLoop env devs c fuel r bm = some (bmf, R, early, evs) →
      r ≤ R ∧ (∀ r', r ≤ r' → r' < R →
        elapsedBefore env r' < POST_RESET_MSG_WAIT_TIME) := by
  intro fuel
  induction fuel with
  | zero => intro r bm bmf R early evs h; simp [pollLoop] at h
  | succ fuel ih =>
      intro r bm bmf R early evs h
      rw [pollLoop] at h
      by_cases htime : elapsedBefore env r < POST_RESET_MSG_WAIT_TIME
      · rw [if_pos htime] at h
        by_cases hc : c = devs.length
        · rw [if_pos hc] at h
          simp only [Option.some.injEq, Prod.mk.injEq] at h
          obtain ⟨h1, h2, h3, h4⟩ := h
          subst h2
          exact ⟨Nat.le_succ r, fun r' hr1 hr2 => by
            have : r' = r := by omega
            exact this ▸ htime⟩
        · rw [if_neg hc] at h
          cases hrec : pollLoop env devs c fuel (r + 1)
              (sampleAll env devs r bm) with
          | none => rw [hrec] at h; exact absurd h (by simp)
          | some res =>
              obtain ⟨bmf', R', early', evs'⟩ := res
              rw [hrec] at h
              simp only [Option.some.injEq, Prod.mk.injEq] at h
              obtain ⟨h1, h2, h3, h4⟩ := h
              subst h2
              obtain ⟨hle, hin⟩ := ih (r + 1) (sampleAll env devs r bm)
                bmf' R' early' evs' hrec
              refine ⟨by omega, fun r' hr1 hr2 => ?_⟩
              rcases Nat.eq_or_lt_of_le hr1 with heq | hlt
              · exact heq ▸ htime
              · exact hin r' hlt hr2
      · rw [if_neg htime] at h
        simp only [Option.some.injEq, Prod.mk.injEq] at h
        obtain ⟨h1, h2, h3, h4⟩ := h
        subst h2
        exact ⟨le_refl r, fun r' hr1 hr2 => by omega⟩

/-- If at least one round ran, each device's final bit-map entry is the
sample taken in the last executed round (`R - 1`); if no round ran the map
is unchanged. -/
theorem pollLoop_final (env : Env) (devs : List Nat) (c : Nat) :
    ∀ fuel r bm bmf R early evs,
      pollLoop env devs c fuel r bm = some (bmf, R, early, evs) →
      (R = r ∧ bmf = bm) ∨
        (r < R ∧ ∀ j ∈ devs, lookupBit bmf j = readBit env j (R - 1)) := by
  intro fuel
  induction fuel with
  | zero => intro r bm bmf R early evs h; simp [pollLoop] at h
  | succ fuel ih =>
      intro r bm bmf R early evs h
      rw [pollLoop] at h
      by_cases htime : elapsedBefore env r < POST_RESET_MSG_WAIT_TIME
      · rw [if_pos htime] at h
        by_cases hc : c = devs.length
        · rw [if_pos hc] at h
          simp only [Option.some.injEq, Prod.mk.injEq] at h
          obtain ⟨h1, h2, h3, h4⟩ := h
          subst h1; subst h2
          refine Or.inr ⟨Nat.lt_succ_self r, fun j hj => ?_⟩
          simp [lookupBit_sampleAll, hj]
        · rw [if_neg hc] at h
          cases hrec : pollLoop env devs c fuel (r + 1)
              (sampleAll env devs r bm) with
          | none => rw [hrec] at h; exact absurd h (by simp)
          | some res =>
              obtain ⟨bmf', R', early', evs'⟩ := res
              rw [hrec] at h
              simp only [Option.some.injEq, Prod.mk.injEq] at h
              obtain ⟨h1, h2, h3, h4⟩ := h
              subst h1; subst h2
              rcases ih (r + 1) (sampleAll env devs r bm) bmf' R' early' evs'
                  hrec with ⟨hR, hbm⟩ | ⟨hR, hbm⟩
              · subst hR; subst hbm
                refine Or.inr ⟨Nat.lt_succ_self r, fun j hj => ?_⟩
                simp [lookupBit_sampleAll, hj]
              · exact Or.inr ⟨by omega, hbm⟩
      · rw [if_neg htime] at h
        simp only [Option.some.injEq, Prod.mk.injEq] at h
        obtain ⟨h1, h2, h3, h4⟩ := h
        exact Or.inl ⟨h2.symm, h1.symm⟩

theorem count_readCfg_map (devs : List Nat) (i : Nat) :
    (devs.map (fun j => Event.readCfg j 1 4)).count (Event.readCfg i 1 4) =
      devs.count i := by
  induction devs with
  | nil => rfl
  | cons j rest ih =>
      simp only [List.map_cons, List.count_cons, ih]
      by_cases hij : j = i <;> simp [hij]

/-- Every event the poll loop emits is a 1-byte read at offset 4 for a
device of the batch, or the inter-round sleep; and each executed round
reads each device exactly as often as it occurs in the device list. -/
theorem pollLoop_events (env : Env) (devs : List Nat) (c : Nat) :
    ∀ fuel r bm bmf R early evs,
      pollLoop env devs c fuel r bm = some (bmf, R, early, evs) →
      (∀ e ∈ evs, (∃ i ∈ devs, e = Event.readCfg i 1 4) ∨ e = Event.sleepMs) ∧
        (∀ i, evs.count (Event.readCfg i 1 4) = (R - r) * devs.count i) := by
  intro fuel
  induction fuel with
  | zero => intro r bm bmf R early evs h; simp [pollLoop] at h
  | succ fuel ih =>
      intro r bm bmf R early evs h
      rw [pollLoop] at h
      by_cases htime : elapsedBefore env r < POST_RESET_MSG_WAIT_TIME
      · rw [if_pos htime] at h
        by_cases hc : c = devs.length
        · rw [if_pos hc] at h
          simp only [Option.some.injEq, Prod.mk.injEq] at h
          obtain ⟨h1, h2, h3, h4⟩ := h
          subst h2; subst h4
          refine ⟨fun e he => ?_, fun i => ?_⟩
          · obtain ⟨i, hi, rfl⟩ := List.mem_map.mp he
            exact Or.inl ⟨i, hi, rfl⟩
          · have hr1 : r + 1 - r = 1 := by omega
            rw [hr1, one_mul]
            exact count_readCfg_map devs i
        · rw [if_neg hc] at h
          cases hrec : pollLoop env devs c fuel (r + 1)
              (sampleAll env devs r bm) with
          | none => rw [hrec] at h; exact absurd h (by simp)
          | some res =>
              obtain ⟨bmf', R', early', evs'⟩ := res
              rw [hrec] at h
              simp only [Option.some.injEq, Prod.mk.injEq] at h
              obtain ⟨h1, h2, h3, h4⟩ := h
              subst h2; subst h4
              obtain ⟨hshape, hcount⟩ := ih (r + 1) (sampleAll env devs r bm)
                bmf' R' early' evs' hrec
              obtain ⟨hle, -⟩ := pollLoop_bounds env devs c fuel (r + 1)
                (sampleAll env devs r bm) bmf' R' early' evs' hrec
              refine ⟨fun e he => ?_, fun i => ?_⟩
              · rcases List.mem_append.mp he with hl | hr
                · obtain ⟨i, hi, rfl⟩ := List.mem_map.mp hl
                  exact Or.inl ⟨i, hi, rfl⟩
                · rcases List.mem_cons.mp hr with rfl | hr'
                  · exact Or.inr rfl
                  · exact hshape e hr'
              · rw [List.count_append]
                have hc1 : (Event.sleepMs :: evs').count (Event.readCfg i 1 4) =
                    evs'.count (Event.readCfg i 1 4) := by
                  simp [List.count_cons, beq_iff_eq]
                rw [hc1, count_readCfg_map devs i, hcount i]
                have hsplit : R' - r = (R' - (r + 1)) + 1 := by omega
                rw [hsplit]
                ring
      · rw [if_neg htime] at h
        simp only [Option.some.injEq, Prod.mk.injEq] at h
        obtain ⟨h1, h2, h3, h4⟩ := h
        subst h2; subst h4
        exact ⟨fun e he => absurd he (List.not_mem_nil e),
          fun i => by simp⟩

/-- The poll loop never adds or removes bit-map entries when every device
already has one. -/
theorem pollLoop_keys (env : Env) (devs : List Nat) (c : Nat) :
    ∀ fuel r bm bmf R early evs,
      pollLoop env devs c fuel r bm = some (bmf, R, early, evs) →
      (∀ i ∈ devs, i ∈ bm.map Prod.fst) →
      bmf.map Prod.fst = bm.map Prod.fst := by
  intro fuel
  induction fuel with
  | zero => intro r bm bmf R early evs h; simp [pollLoop] at h
  | succ fuel ih =>
      intro r bm bmf R early evs h hmem
      rw [pollLoop] at h
      by_cases htime : elapsedBefore env r < POST_RESET_MSG_WAIT_TIME
      · rw [if_pos htime] at h
        by_cases hc : c = devs.length
        · rw [if_pos hc] at h
          simp only [Option.some.injEq, Prod.mk.injEq] at h
          obtain ⟨h1, h2, h3, h4⟩ := h
          subst h1
          exact keys_sampleAll env devs r bm hmem
        · rw [if_neg hc] at h
          cases hrec : pollLoop env devs c fuel (r + 1)
              (sampleAll env devs r bm) with
          | none => rw [hrec] at h; exact absurd h (by simp)
          | some res =>
              obtain ⟨bmf', R', early', evs'⟩ := res
              rw [hrec] at h
              simp only [Option.some.injEq, Prod.mk.injEq] at h
              obtain ⟨h1, h2, h3, h4⟩ := h
              subst h1
              have hkeys := keys_sampleAll env devs r bm hmem
              rw [ih (r + 1) (sampleAll env devs r bm) bmf' R' early' evs' hrec
                (fun i hi => hkeys ▸ hmem i hi), hkeys]
      · rw [if_neg htime] at h
        simp only [Option.some.injEq, Prod.mk.injEq] at h
        obtain ⟨h1, h2, h3, h4⟩ := h
        subst h1
        rfl

/-- The loop cannot run out of fuel if the clock reaches the timeout within
the fuel budget: it returns a result. -/
theorem pollLoop_total (env : Env) (devs : List Nat) (c : Nat) :
    ∀ fuel r bm,
      (∃ k < fuel, POST_RESET_MSG_WAIT_TIME ≤ elapsedBefore env (r + k)) →
      (pollLoop env devs c fuel r bm).isSome = true := by
  intro fuel
  induction fuel with
  | zero => intro r bm ⟨k, hk, _⟩; omega
  | succ fuel ih =>
      intro r bm ⟨k, hk, hge⟩
      rw [pollLoop]
      by_cases htime : elapsedBefore env r < POST_RESET_MSG_WAIT_TIME
      · rw [if_pos htime]
        by_cases hc : c = devs.length
        · rw [if_pos hc]; rfl
        · rw [if_neg hc]
          have hk0 : k ≠ 0 := by
            rintro rfl
            rw [Nat.add_zero] at hge
            exact absurd htime (not_lt.mpr hge)
          have : (pollLoop env devs c fuel (r + 1)
              (sampleAll env devs r bm)).isSome = true := by
            refine ih (r + 1) (sampleAll env devs r bm) ⟨k - 1, by omega, ?_⟩
            have : r + 1 + (k - 1) = r + k := by omega
            rw [this]
            exact hge
          cases hrec : pollLoop env devs c fuel (r + 1)
              (sampleAll env devs r bm) with
          | none => rw [hrec] at this; simp at this
          | some res => obtain ⟨bmf', R', early', evs'⟩ := res; rfl
      · rw [if_neg htime]; rfl

/-! ### C2 -/

/-- C2: for every non-empty device list, the early-exit check (`completed`,
frozen at 0, equalling the device count) never fires, so the poll loop
exits only when the elapsed wall-clock time reaches the 2-second timeout,
regardless of the sampled bit values. -/
theorem C2_early_exit_never_fires (env : Env) (devs : List Nat)
    (fuel r : Nat) (bm bmf : List (Nat × Nat)) (R : Nat) (early : Bool)
    (evs : List Event) (hne : devs ≠ [])
    (h : pollLoop env devs 0 fuel r bm = some (bmf, R, early, evs)) :
    early = false ∧ POST_RESET_MSG_WAIT_TIME ≤ elapsedBefore env R := by
  rcases pollLoop_exit env devs 0 fuel r bm bmf R early evs h with
    ⟨-, hlen⟩ | hto
  · exact absurd (List.length_eq_zero.mp hlen.symm) hne
  · exact hto

/-- C2, witness: a concrete one-device run in which the loop exits with
`early = false` at elapsed time 3 ≥ 2. -/
theorem C2_early_exit_never_fires_spot :
    ([3] : List Nat) ≠ [] ∧
    pollLoop (testEnv (fun _ _ => 1) 0) [3] 0 2 0 [(3, 1)] =
      some ([(3, 1)], 1, false, [.readCfg 3 1 4, .sleepMs]) ∧
    (false = false ∧
      POST_RESET_MSG_WAIT_TIME ≤ elapsedBefore (testEnv (fun _ _ => 1) 0) 1) :=
  ⟨by decide, by decide,
   C2_early_exit_never_fires (testEnv (fun _ _ => 1) 0) [3] 2 0 [(3, 1)]
     [(3, 1)] 1 false [.readCfg 3 1 4, .sleepMs] (by decide) (by decide)⟩

/-! ### C7 -/

/-- The `time.sleep(0.001)` interval, in seconds. -/
def SLEEP_INTERVAL : ℚ := 1 / 1000

/-- If the clock starts at or above one sleep interval and advances by at
least one sleep interval per round, it grows at least linearly. -/
theorem clock_grows (env : Env)
    (h0 : SLEEP_INTERVAL ≤ env.elapsedAt 0)
    (hstep : ∀ r, env.elapsedAt r + SLEEP_INTERVAL ≤ env.elapsedAt (r + 1)) :
    ∀ r : ℕ, ((r : ℚ) + 1) * SLEEP_INTERVAL ≤ env.elapsedAt r := by
  intro r
  induction r with
  | zero => simpa using h0
  | succ r ih =>
      have := hstep r
      push_cast
      push_cast at ih
      linarith

/-- C7: for every non-empty batch and every poll source that never returns
bit value 0, if each round advances the wall clock by at least the
1-millisecond sleep then the loop (with ample fuel) terminates — not by
the early exit but at the first condition check at or past the 2-second
timeout, after at most 2000 rounds, the check before its last round having
still been below the timeout. -/
theorem C7_terminates_at_timeout (env : Env) (devs : List Nat)
    (bm : List (Nat × Nat)) (hne : devs ≠ [])
    (h0 : SLEEP_INTERVAL ≤ env.elapsedAt 0)
    (hstep : ∀ r, env.elapsedAt r + SLEEP_INTERVAL ≤ env.elapsedAt (r + 1))
    (_hnever : ∀ i r, readBit env i r ≠ 0) :
    ∃ bmf R evs, pollLoop env devs 0 2001 0 bm = some (bmf, R, false, evs) ∧
      POST_RESET_MSG_WAIT_TIME ≤ elapsedBefore env R ∧
      elapsedBefore env (R - 1) < POST_RESET_MSG_WAIT_TIME ∧
      1 ≤ R ∧ R ≤ 2000 := by
  have h2000 : POST_RESET_MSG_WAIT_TIME ≤ elapsedBefore env 2000 := by
    have := clock_grows env h0 hstep 1999
    have heq : ((1999 : ℕ) : ℚ) + 1 = 2000 := by norm_num
    rw [heq] at this
    have : (2 : ℚ) ≤ env.elapsedAt 1999 := by
      rw [SLEEP_INTERVAL] at this
      linarith
    simpa [elapsedBefore, POST_RESET_MSG_WAIT_TIME] using this
  have htot : (pollLoop env devs 0 2001 0 bm).isSome = true :=
    pollLoop_total env devs 0 2001 0 bm ⟨2000, by omega, h2000⟩
  cases hres : pollLoop env devs 0 2001 0 bm with
  | none => rw [hres] at htot; simp at htot
  | some res =>
      obtain ⟨bmf, R, early, evs⟩ := res
      rcases pollLoop_exit env devs 0 2001 0 bm bmf R early evs hres with
        ⟨-, hlen⟩ | ⟨hearly, hto⟩
      · exact absurd (List.length_eq_zero.mp hlen.symm) hne
      obtain ⟨-, hin⟩ := pollLoop_bounds env devs 0 2001 0 bm bmf R early evs hres
      have hR1 : 1 ≤ R := by
        rcases Nat.eq_zero_or_pos R with rfl | h
        · rw [show elapsedBefore env 0 = 0 from rfl,
            POST_RESET_MSG_WAIT_TIME] at hto
          norm_num at hto
        · exact h
      have hRle : R ≤ 2000 := by
        by_contra hRg
        push_neg at hRg
        exact absurd h2000 (not_le.mpr (hin 2000 (by omega) (by omega)))
      have hprev : elapsedBefore env (R - 1) < POST_RESET_MSG_WAIT_TIME :=
        hin (R - 1) (by omega) (by omega)
      subst hearly
      exact ⟨bmf, R, evs, rfl, hto, hprev, hR1, hRle⟩

/-- A strictly advancing wall clock (1 second per round) over a device
whose config byte is always `0x02` (bit 1 set, reset never completed). -/
def timeoutEnv : Env where
  platform := "x86_64"
  bdf := fun i => toString i
  pread := fun _ _ _ _ => [2]
  elapsedAt := fun r => (r : ℚ) + 1
  ioctlResult := fun _ _ => true

theorem timeoutEnv_start : SLEEP_INTERVAL ≤ timeoutEnv.elapsedAt 0 := by
  norm_num [timeoutEnv, SLEEP_INTERVAL]

theorem timeoutEnv_step (r : Nat) :
    timeoutEnv.elapsedAt r + SLEEP_INTERVAL ≤ timeoutEnv.elapsedAt (r + 1) := by
  simp only [timeoutEnv, SLEEP_INTERVAL]
  push_cast
  norm_num

theorem timeoutEnv_never_zero (i r : Nat) : readBit timeoutEnv i r ≠ 0 := by
  unfold readBit timeoutEnv intFromBytesLE
  decide

/-- C7, witness: the termination theorem applied to `timeoutEnv` and the
one-device batch `[3]`. -/
theorem C7_terminates_at_timeout_spot :
    ∃ bmf R evs,
      pollLoop timeoutEnv [3] 0 2001 0 [(3, 1)] = some (bmf, R, false, evs) ∧
      POST_RESET_MSG_WAIT_TIME ≤ elapsedBefore timeoutEnv R ∧
      elapsedBefore timeoutEnv (R - 1) < POST_RESET_MSG_WAIT_TIME ∧
      1 ≤ R ∧ R ≤ 2000 :=
  C7_terminates_at_timeout timeoutEnv [3] [(3, 1)] (by decide)
    timeoutEnv_start timeoutEnv_step timeoutEnv_never_zero

/-! ### Structure of the full orchestrator run -/

/-- On non-ARM hosts, a successful run returns the deduplicated interface
list as handles and the concatenation of the six stage segments in program
order. -/
theorem full_lds_reset_eq (env : Env) (l : List Nat) (fuel : Nat)
    (harm : isArmPlatform env.platform = false)
    (bmf : List (Nat × Nat)) (R : Nat) (early : Bool) (evs : List Event)
    (hpoll : pollLoop env l.dedup 0 fuel 0 (l.dedup.map (fun i => (i, 1))) =
      some (bmf, R, early, evs)) :
    full_lds_reset env l fuel = some (.ok l.dedup,
      (l.dedup.flatMap (fun i =>
        [Event.resolveBDF i, Event.ioctl i TENSTORRENT_RESET_DEVICE_CONFIG_WRITE])) ++
      l.dedup.map Event.openCfg ++ evs ++
      (l.dedup.map (fun i => Event.classify i (lookupBit bmf i == 0))) ++
      (l.dedup.map (fun i => Event.ioctl i TENSTORRENT_RESET_DEVICE_RESTORE_STATE)) ++
      l.dedup.map Event.mkHandle) := by
  unfold full_lds_reset
  rw [if_neg (by simp [harm])]
  simp only [hpoll]

theorem stage_of_mem_bdfSeg (devs : List Nat) (e : Event)
    (h : e ∈ devs.flatMap (fun i =>
      [Event.resolveBDF i, Event.ioctl i TENSTORRENT_RESET_DEVICE_CONFIG_WRITE])) :
    stageOf e = 0 := by
  induction devs with
  | nil => simp at h
  | cons i rest ih =>
      simp only [List.flatMap_cons, List.mem_append] at h
      rcases h with h | h
      · rcases List.mem_cons.mp h with rfl | h'
        · rfl
        · rcases List.mem_cons.mp h' with rfl | h''
          · simp [stageOf, TENSTORRENT_RESET_DEVICE_CONFIG_WRITE]
          · simp at h''
      · exact ih h

theorem stage_of_mem_map {f : Nat → Event} {k : Nat}
    (hf : ∀ i, stageOf (f i) = k) (devs : List Nat) (e : Event)
    (h : e ∈ devs.map f) : stageOf e = k := by
  obtain ⟨i, -, rfl⟩ := List.mem_map.mp h
  exact hf i

theorem stage_of_mem_poll (env : Env) (devs : List Nat) (c fuel r : Nat)
    (bm bmf : List (Nat × Nat)) (R : Nat) (early : Bool) (evs : List Event)
    (h : pollLoop env devs c fuel r bm = some (bmf, R, early, evs))
    (e : Event) (he : e ∈ evs) : stageOf e = 2 := by
  rcases (pollLoop_events env devs c fuel r bm bmf R early evs h).1 e he with
    ⟨i, -, rfl⟩ | rfl
  · rfl
  · rfl

/-! ### C8 -/

/-- C8: if the host platform string starts with "arm" or "aarch",
`full_lds_reset` aborts with the unsupported-platform failure and an empty
event trace — no BDF resolution, no ioctl command, and no config-space
open or read happens for any device. -/
theorem C8_arm_aborts_before_io (env : Env) (l : List Nat) (fuel : Nat)
    (h : pyStartsWith env.platform "arm" = true ∨
      pyStartsWith env.platform "aarch" = true) :
    full_lds_reset env l fuel = some (.error .UnsupportedPlatform, []) := by
  have harm : isArmPlatform env.platform = true := by
    rcases h with h | h <;> simp [isArmPlatform, h]
  unfold full_lds_reset
  rw [if_pos (by simp [harm])]

/-- An ARM host environment. -/
def aarchEnv : Env :=
  { testEnv (fun _ _ => 1) 0 with platform := "aarch64" }

/-- C8, witness: the abort theorem applied to an `"aarch64"` host with a
two-device batch. -/
theorem C8_arm_aborts_before_io_spot :
    pyStartsWith aarchEnv.platform "aarch" = true ∧
    full_lds_reset aarchEnv [3, 4] 5 =
      some (.error .UnsupportedPlatform, []) :=
  ⟨by decide, C8_arm_aborts_before_io aarchEnv [3, 4] 5 (Or.inr (by decide))⟩

/-! ### C10 -/

/-- C10: on a non-ARM platform with the empty device list, no ioctl and no
config-space read happens (the whole event trace is empty), the poll loop
exits through the early-exit `break` on its first round (`completed = 0`
equals the device count 0) rather than by the 2-second timeout, and the
call returns the empty handle list. -/
theorem C10_empty_batch (env : Env) (fuel : Nat)
    (harm : isArmPlatform env.platform = false) :
    pollLoop env [] 0 (fuel + 1) 0 [] = some ([], 1, true, []) ∧
    full_lds_reset env [] (fuel + 1) = some (.ok [], []) := by
  have htime : elapsedBefore env 0 < POST_RESET_MSG_WAIT_TIME := by
    rw [show elapsedBefore env 0 = 0 from rfl, POST_RESET_MSG_WAIT_TIME]
    norm_num
  have hpoll : pollLoop env ([] : List Nat) 0 (fuel + 1) 0 [] =
      some ([], 1, true, []) := by
    rw [pollLoop, if_pos htime]
    rfl
  refine ⟨hpoll, ?_⟩
  have := full_lds_reset_eq env [] (fuel + 1) harm [] 1 true []
    (by simpa using hpoll)
  simpa using this

/-- C10, witness: the empty-batch theorem applied to a concrete x86 host. -/
theorem C10_empty_batch_spot :
    pollLoop (testEnv (fun _ _ => 1) 0) [] 0 1 0 [] = some ([], 1, true, []) ∧
    full_lds_reset (testEnv (fun _ _ => 1) 0) [] 1 = some (.ok [], []) :=
  C10_empty_batch (testEnv (fun _ _ => 1) 0) 0 (by decide)

/-! ### Stage segments of a full run -/

/-- Stage 0: per-device BDF resolution immediately followed by that
device's `CONFIG_WRITE` ioctl — one fused loop, in device order. -/
def bdfSeg (devs : List Nat) : List Event :=
  devs.flatMap (fun i =>
    [Event.resolveBDF i, Event.ioctl i TENSTORRENT_RESET_DEVICE_CONFIG_WRITE])

/-- Stage 1: the config-space `open` per device. -/
def openSeg (devs : List Nat) : List Event := devs.map Event.openCfg

/-- Stage 3: the per-device completed / not-completed diagnostics, decided
by the final bit map. -/
def classifySeg (devs : List Nat) (bmf : List (Nat × Nat)) : List Event :=
  devs.map (fun i => Event.classify i (lookupBit bmf i == 0))

/-- Stage 4: the unconditional `RESTORE_STATE` ioctl per device. -/
def restoreSeg (devs : List Nat) : List Event :=
  devs.map (fun i => Event.ioctl i TENSTORRENT_RESET_DEVICE_RESTORE_STATE)

/-- Stage 5: construction of the returned device handles. -/
def handleSeg (devs : List Nat) : List Event := devs.map Event.mkHandle

/-- Inversion of a successful non-ARM run: it embeds a poll-loop run, the
handles are the deduplicated list, and the trace is the six stage segments
in program order. -/
theorem full_lds_reset_inv (env : Env) (l : List Nat) (fuel : Nat)
    (res : Except ResetError (List Nat)) (trace : List Event)
    (harm : isArmPlatform env.platform = false)
    (hfull : full_lds_reset env l fuel = some (res, trace)) :
    ∃ bmf R early evs,
      pollLoop env l.dedup 0 fuel 0 (l.dedup.map (fun i => (i, 1))) =
        some (bmf, R, early, evs) ∧
      res = .ok l.dedup ∧
      trace = bdfSeg l.dedup ++ openSeg l.dedup ++ evs ++
        classifySeg l.dedup bmf ++ restoreSeg l.dedup ++ handleSeg l.dedup := by
  unfold full_lds_reset at hfull
  rw [if_neg (by simp [harm])] at hfull
  cases hpoll : pollLoop env l.dedup 0 fuel 0
      (l.dedup.map (fun i => (i, 1))) with
  | none =>
      simp only [hpoll] at hfull
      exact Option.noConfusion hfull
  | some pres =>
      obtain ⟨bmf, R, early, evs⟩ := pres
      simp only [hpoll, Option.some.injEq, Prod.mk.injEq] at hfull
      obtain ⟨hres, htrace⟩ := hfull
      exact ⟨bmf, R, early, evs, rfl, hres.symm, htrace.symm⟩

theorem stage_of_mem_openSeg (devs : List Nat) (e : Event)
    (h : e ∈ openSeg devs) : stageOf e = 1 := by
  unfold openSeg at h
  exact @stage_of_mem_map Event.openCfg 1 (fun _ => rfl) devs e h

theorem stage_of_mem_classifySeg (devs : List Nat) (bmf : List (Nat × Nat))
    (e : Event) (h : e ∈ classifySeg devs bmf) : stageOf e = 3 := by
  unfold classifySeg at h
  exact @stage_of_mem_map (fun i => Event.classify i (lookupBit bmf i == 0)) 3
    (fun _ => rfl) devs e h

theorem stage_of_mem_restoreSeg (devs : List Nat) (e : Event)
    (h : e ∈ restoreSeg devs) : stageOf e = 4 := by
  unfold restoreSeg at h
  exact @stage_of_mem_map
    (fun i => Event.ioctl i TENSTORRENT_RESET_DEVICE_RESTORE_STATE) 4
    (fun _ => rfl) devs e h

theorem stage_of_mem_handleSeg (devs : List Nat) (e : Event)
    (h : e ∈ handleSeg devs) : stageOf e = 5 := by
  unfold handleSeg at h
  exact @stage_of_mem_map Event.mkHandle 5 (fun _ => rfl) devs e h

/-- Appending a constant-stage segment above an upper-bounded prefix keeps
the stage sequence weakly increasing. -/
theorem pairwise_stage_step {acc seg : List Event} {m k : Nat} (hmk : m ≤ k)
    (hacc : acc.Pairwise (fun a b => stageOf a ≤ stageOf b))
    (hub : ∀ e ∈ acc, stageOf e ≤ m)
    (hseg : ∀ e ∈ seg, stageOf e = k) :
    ((acc ++ seg).Pairwise (fun a b => stageOf a ≤ stageOf b)) ∧
      (∀ e ∈ acc ++ seg, stageOf e ≤ k) := by
  constructor
  · rw [List.pairwise_append]
    refine ⟨hacc, ?_, ?_⟩
    · exact List.pairwise_of_forall_mem_list
        (fun a ha b hb => by rw [hseg a ha, hseg b hb])
    · intro a ha b hb
      rw [hseg b hb]
      exact le_trans (hub a ha) hmk
  · intro e he
    rcases List.mem_append.mp he with h | h
    · exact le_trans (hub e h) hmk
    · exact le_of_eq (hseg e h)

/-- The stages of a full non-ARM run's trace are weakly increasing: the six
stage segments are batch-wide barriers in program order. -/
theorem trace_stages_monotone (devs : List Nat) (bmf : List (Nat × Nat))
    (evs : List Event) (hevs : ∀ e ∈ evs, stageOf e = 2) :
    ((bdfSeg devs ++ openSeg devs ++ evs ++ classifySeg devs bmf ++
      restoreSeg devs ++ handleSeg devs).map stageOf).Pairwise (· ≤ ·) := by
  rw [List.pairwise_map]
  have h0 : ∀ e ∈ bdfSeg devs, stageOf e = 0 := fun e he =>
    stage_of_mem_bdfSeg devs e he
  have s0 : (bdfSeg devs).Pairwise (fun a b => stageOf a ≤ stageOf b) :=
    List.pairwise_of_forall_mem_list (fun a ha b hb => by rw [h0 a ha, h0 b hb])
  have u0 : ∀ e ∈ bdfSeg devs, stageOf e ≤ 0 := fun e he => le_of_eq (h0 e he)
  obtain ⟨s1, u1⟩ := pairwise_stage_step (by omega) s0 u0
    (stage_of_mem_openSeg devs)
  obtain ⟨s2, u2⟩ := pairwise_stage_step (by omega) s1 u1 hevs
  obtain ⟨s3, u3⟩ := pairwise_stage_step (by omega) s2 u2
    (stage_of_mem_classifySeg devs bmf)
  obtain ⟨s4, u4⟩ := pairwise_stage_step (by omega) s3 u3
    (stage_of_mem_restoreSeg devs)
  obtain ⟨s5, -⟩ := pairwise_stage_step (by omega) s4 u4
    (stage_of_mem_handleSeg devs)
  exact s5

theorem not_mem_of_stage {s : List Event} {k : Nat}
    (hs : ∀ e ∈ s, stageOf e = k) {e : Event} (he : stageOf e ≠ k) :
    e ∉ s :=
  fun h => he (hs e h)

theorem count_map_inj (f : Nat → Event) (hf : ∀ a b, f a = f b → a = b) :
    ∀ (devs : List Nat) (i : Nat), (devs.map f).count (f i) = devs.count i := by
  intro devs i
  induction devs with
  | nil => rfl
  | cons j rest ih =>
      simp only [List.map_cons, List.count_cons, ih]
      by_cases h : j = i
      · simp [h]
      · have hfne : f i ≠ f j := fun he => h (hf j i he.symm)
        simp [beq_iff_eq, h, hfne, Ne.symm hfne, Ne.symm h]

theorem count_bdfSeg_resolve (devs : List Nat) (i : Nat) :
    (bdfSeg devs).count (Event.resolveBDF i) = devs.count i := by
  induction devs with
  | nil => rfl
  | cons j rest ih =>
      simp only [bdfSeg, List.flatMap_cons] at ih ⊢
      rw [List.count_append, ih]
      by_cases h : j = i
      · simp only [h, List.count_cons, List.count_nil, beq_iff_eq]
        simp
        omega
      · simp [List.count_cons, beq_iff_eq, h, Ne.symm h]

theorem count_bdfSeg_cw (devs : List Nat) (i : Nat) :
    (bdfSeg devs).count
      (Event.ioctl i TENSTORRENT_RESET_DEVICE_CONFIG_WRITE) = devs.count i := by
  induction devs with
  | nil => rfl
  | cons j rest ih =>
      simp only [bdfSeg, List.flatMap_cons] at ih ⊢
      rw [List.count_append, ih]
      by_cases h : j = i
      · simp only [h, List.count_cons, List.count_nil, beq_iff_eq]
        simp
        omega
      · simp [List.count_cons, beq_iff_eq, h, Ne.symm h]

/-! ### C5 -/

/-- C5, counterexample: on the two-device batch `[3, 5]` the run succeeds,
yet BDF resolution is NOT a batch-wide barrier before the config-write
commands: the first device's `CONFIG_WRITE` ioctl is issued before the
second device's BDF is resolved (the two are fused in one per-device
loop). -/
theorem C5_bdf_barrier_refuted :
    (full_lds_reset (testEnv (fun _ _ => 1) 0) [3, 5] 2).isSome = true ∧
    ¬ BdfBarrier (traceOf (full_lds_reset (testEnv (fun _ _ => 1) 0) [3, 5] 2)) := by
  decide

/-- C5, amended: the orchestrator's stages are batch-wide barriers EXCEPT
the first: BDF resolution and `CONFIG_WRITE` are fused into one per-device
loop (resolve `i` immediately followed by config-write `i`, per device).
That fused stage precedes all config-space opens, which precede all poll
reads and sleeps, which precede all classification, which precedes all
`RESTORE_STATE` commands, which precede all handle constructions — the
trace's stage sequence is weakly increasing. -/
theorem C5_stage_barriers (env : Env) (l : List Nat) (fuel : Nat)
    (res : Except ResetError (List Nat)) (trace : List Event)
    (harm : isArmPlatform env.platform = false)
    (hfull : full_lds_reset env l fuel = some (res, trace)) :
    (∃ rest, trace = bdfSeg l.dedup ++ rest ∧ ∀ e ∈ rest, 1 ≤ stageOf e) ∧
    (trace.map stageOf).Pairwise (· ≤ ·) := by
  obtain ⟨bmf, R, early, evs, hpoll, -, htrace⟩ :=
    full_lds_reset_inv env l fuel res trace harm hfull
  have hevs : ∀ e ∈ evs, stageOf e = 2 :=
    stage_of_mem_poll env l.dedup 0 fuel 0 _ bmf R early evs hpoll
  subst htrace
  constructor
  · refine ⟨openSeg l.dedup ++ evs ++ classifySeg l.dedup bmf ++
      restoreSeg l.dedup ++ handleSeg l.dedup, by simp, ?_⟩
    intro e he
    simp only [List.mem_append] at he
    rcases he with (((ho | hp) | hc) | hr) | hh
    · rw [stage_of_mem_openSeg l.dedup e ho]
    · rw [hevs e hp]; omega
    · rw [stage_of_mem_classifySeg l.dedup bmf e hc]; omega
    · rw [stage_of_mem_restoreSeg l.dedup e hr]; omega
    · rw [stage_of_mem_handleSeg l.dedup e hh]; omega
  · exact trace_stages_monotone l.dedup bmf evs hevs

/-- C5, witness: the amended barrier theorem on a concrete two-device run. -/
theorem C5_stage_barriers_spot :
    isArmPlatform (testEnv (fun _ _ => 1) 0).platform = false ∧
    (∃ res trace,
      full_lds_reset (testEnv (fun _ _ => 1) 0) [3, 5] 2 = some (res, trace) ∧
      (∃ rest, trace = bdfSeg ([3, 5] : List Nat).dedup ++ rest ∧
        ∀ e ∈ rest, 1 ≤ stageOf e) ∧
      (trace.map stageOf).Pairwise (· ≤ ·)) :=
  ⟨by decide,
   ⟨.ok [3, 5], traceOf (full_lds_reset (testEnv (fun _ _ => 1) 0) [3, 5] 2),
    by decide,
    C5_stage_barriers (testEnv (fun _ _ => 1) 0) [3, 5] 2 (.ok [3, 5])
      (traceOf (full_lds_reset (testEnv (fun _ _ => 1) 0) [3, 5] 2))
      (by decide) (by decide)⟩⟩

/-! ### C6 -/

theorem stage_of_mem_bdfSeg_def (devs : List Nat) (e : Event)
    (h : e ∈ bdfSeg devs) : stageOf e = 0 := by
  unfold bdfSeg at h
  exact stage_of_mem_bdfSeg devs e h

/-- The poll loop reads the environment only through `pread` (via
`readBit`) and `elapsedAt`; in particular the discarded ioctl results play
no role. -/
theorem pollLoop_env_congr (env1 env2 : Env)
    (hp : env1.pread = env2.pread) (he : env1.elapsedAt = env2.elapsedAt)
    (devs : List Nat) (c : Nat) :
    ∀ fuel r bm, pollLoop env1 devs c fuel r bm =
      pollLoop env2 devs c fuel r bm := by
  intro fuel
  induction fuel with
  | zero => intro r bm; rfl
  | succ fuel ih =>
      intro r bm
      rw [pollLoop, pollLoop]
      have hb : elapsedBefore env1 r = elapsedBefore env2 r := by
        cases r <;> simp [elapsedBefore, he]
      have hread : ∀ i rr, readBit env1 i rr = readBit env2 i rr := by
        intro i rr
        unfold readBit
        rw [hp]
      have hs : sampleAll env1 devs r bm = sampleAll env2 devs r bm := by
        unfold sampleAll
        congr 1
        funext m i
        rw [hread]
      rw [hb, hs]
      simp only [ih]

/-- The orchestrator never looks at the Boolean a reset command returns:
swapping in any other result function leaves the run unchanged. -/
theorem full_lds_reset_ioctlResult_irrel (env : Env) (f : Nat → Nat → Bool)
    (l : List Nat) (fuel : Nat) :
    full_lds_reset { env with ioctlResult := f } l fuel =
      full_lds_reset env l fuel := by
  unfold full_lds_reset
  simp only [pollLoop_env_congr { env with ioctlResult := f } env rfl rfl
    l.dedup 0 fuel]

theorem stage_of_isRead {e : Event} (h : eventIsRead e = true) :
    stageOf e = 2 := by
  cases e <;> simp_all [eventIsRead, stageOf]

theorem stage_of_isRestore {e : Event} (h : eventIsRestore e = true) :
    stageOf e = 4 := by
  cases e <;> simp_all [eventIsRestore, stageOf,
    TENSTORRENT_RESET_DEVICE_RESTORE_STATE, TENSTORRENT_RESET_DEVICE_CONFIG_WRITE]

theorem stage_of_isClassifyFor {i : Nat} {e : Event}
    (h : eventIsClassifyFor i e = true) : stageOf e = 3 := by
  cases e <;> simp_all [eventIsClassifyFor, stageOf]

/-- C6: the `RESTORE_STATE` command is issued exactly once per deduplicated
device, unconditionally (whatever the classification outcome), strictly
after every poll read and every classification diagnostic; and the
per-command Boolean results are ignored — replacing them changes nothing
about the run. -/
theorem C6_restore_unconditional (env : Env) (l : List Nat) (fuel : Nat)
    (res : Except ResetError (List Nat)) (trace : List Event)
    (harm : isArmPlatform env.platform = false)
    (hfull : full_lds_reset env l fuel = some (res, trace))
    (i : Nat) (hi : i ∈ l.dedup) :
    trace.count (Event.ioctl i TENSTORRENT_RESET_DEVICE_RESTORE_STATE) = 1 ∧
    (∀ p q : Fin trace.length,
      (eventIsRead (trace.get p) = true ∨
        eventIsClassifyFor i (trace.get p) = true) →
      eventIsRestore (trace.get q) = true → p.val < q.val) ∧
    (∀ f, full_lds_reset { env with ioctlResult := f } l fuel =
      full_lds_reset env l fuel) := by
  obtain ⟨bmf, R, early, evs, hpoll, -, htrace⟩ :=
    full_lds_reset_inv env l fuel res trace harm hfull
  have hevs : ∀ e ∈ evs, stageOf e = 2 :=
    stage_of_mem_poll env l.dedup 0 fuel 0 _ bmf R early evs hpoll
  have hstage4 : stageOf (Event.ioctl i TENSTORRENT_RESET_DEVICE_RESTORE_STATE) = 4 :=
    rfl
  subst htrace
  refine ⟨?_, ?_, fun f => full_lds_reset_ioctlResult_irrel env f l fuel⟩
  · rw [List.count_append, List.count_append, List.count_append,
      List.count_append, List.count_append]
    rw [List.count_eq_zero_of_not_mem
        (not_mem_of_stage (stage_of_mem_bdfSeg_def l.dedup) (by rw [hstage4]; omega)),
      List.count_eq_zero_of_not_mem
        (not_mem_of_stage (stage_of_mem_openSeg l.dedup) (by rw [hstage4]; omega)),
      List.count_eq_zero_of_not_mem
        (not_mem_of_stage hevs (by rw [hstage4]; omega)),
      List.count_eq_zero_of_not_mem
        (not_mem_of_stage (stage_of_mem_classifySeg l.dedup bmf)
          (by rw [hstage4]; omega)),
      List.count_eq_zero_of_not_mem
        (not_mem_of_stage (stage_of_mem_handleSeg l.dedup)
          (by rw [hstage4]; omega))]
    have hinj : ∀ a b : Nat,
        Event.ioctl a TENSTORRENT_RESET_DEVICE_RESTORE_STATE =
          Event.ioctl b TENSTORRENT_RESET_DEVICE_RESTORE_STATE → a = b := by
      intro a b hab
      exact (Event.ioctl.injEq .. ▸ hab :).1
    have := count_map_inj
      (fun j => Event.ioctl j TENSTORRENT_RESET_DEVICE_RESTORE_STATE) hinj
      l.dedup i
    unfold restoreSeg
    rw [this, List.count_eq_one_of_mem (List.nodup_dedup l) hi]
  · intro p q hp hq
    have hmono := List.pairwise_iff_get.mp
      (List.pairwise_map.mp (trace_stages_monotone l.dedup bmf evs hevs))
    have hsp : stageOf ((bdfSeg l.dedup ++ openSeg l.dedup ++ evs ++
        classifySeg l.dedup bmf ++ restoreSeg l.dedup ++
        handleSeg l.dedup).get p) ≤ 3 := by
      rcases hp with h | h
      · rw [stage_of_isRead h]
        omega
      · rw [stage_of_isClassifyFor h]
    have hsq : stageOf ((bdfSeg l.dedup ++ openSeg l.dedup ++ evs ++
        classifySeg l.dedup bmf ++ restoreSeg l.dedup ++
        handleSeg l.dedup).get q) = 4 := stage_of_isRestore hq
    by_contra hpq
    push_neg at hpq
    rcases Nat.lt_or_ge q.val p.val with hlt | hge
    · have := hmono q p hlt
      omega
    · have hv : p.val = q.val := by omega
      have hpq' : p = q := Fin.ext hv
      rw [hpq'] at hsp
      omega

/-- The trace of a concrete two-device x86 run in which both devices poll
bit 1 throughout (so both are classified "not completed"). -/
def spotTrace : List Event :=
  traceOf (full_lds_reset (testEnv (fun _ _ => 1) 0) [3, 5] 2)

/-- C6, witness: on a run where classification marks both devices "not
completed", device 3 still gets exactly one `RESTORE_STATE`, after all
reads and diagnostics, and the discarded command results are irrelevant. -/
theorem C6_restore_unconditional_spot :
    Event.classify 3 false ∈ spotTrace ∧
    Event.classify 5 false ∈ spotTrace ∧
    (spotTrace.count (Event.ioctl 3 TENSTORRENT_RESET_DEVICE_RESTORE_STATE) = 1 ∧
      (∀ p q : Fin spotTrace.length,
        (eventIsRead (spotTrace.get p) = true ∨
          eventIsClassifyFor 3 (spotTrace.get p) = true) →
        eventIsRestore (spotTrace.get q) = true → p.val < q.val) ∧
      (∀ f, full_lds_reset
          { testEnv (fun _ _ => 1) 0 with ioctlResult := f } [3, 5] 2 =
        full_lds_reset (testEnv (fun _ _ => 1) 0) [3, 5] 2)) :=
  ⟨by decide, by decide,
   C6_restore_unconditional (testEnv (fun _ _ => 1) 0) [3, 5] 2 (.ok [3, 5])
     spotTrace (by decide) (by decide) 3 (by decide)⟩

/-! ### C9 -/

theorem countP_classifySeg (devs : List Nat) (bmf : List (Nat × Nat))
    (i : Nat) :
    (classifySeg devs bmf).countP (eventIsClassifyFor i) = devs.count i := by
  induction devs with
  | nil => rfl
  | cons j rest ih =>
      simp only [classifySeg, List.map_cons, List.countP_cons] at ih ⊢
      rw [ih]
      by_cases h : j = i
      · simp [eventIsClassifyFor, h, List.count_cons]
      · simp [eventIsClassifyFor, h, List.count_cons, beq_iff_eq, Ne.symm h]

theorem countP_eq_zero_of_stage {s : List Event} {k : Nat}
    (hs : ∀ e ∈ s, stageOf e = k) {i : Nat} (hk : k ≠ 3) :
    s.countP (eventIsClassifyFor i) = 0 := by
  rw [List.countP_eq_zero]
  intro e he hc
  exact hk ((hs e he) ▸ stage_of_isClassifyFor hc)

theorem stageOf_resolveBDF (i : Nat) : stageOf (Event.resolveBDF i) = 0 := rfl

theorem stageOf_cw (i : Nat) :
    stageOf (Event.ioctl i TENSTORRENT_RESET_DEVICE_CONFIG_WRITE) = 0 := rfl

theorem stageOf_restore (i : Nat) :
    stageOf (Event.ioctl i TENSTORRENT_RESET_DEVICE_RESTORE_STATE) = 4 := rfl

theorem stageOf_mkHandle (i : Nat) : stageOf (Event.mkHandle i) = 5 := rfl

/-- C9: deduplication yields exactly the mathematical set of the input ids,
and every stage runs exactly once per distinct id: one BDF resolution, one
`CONFIG_WRITE`, one classification diagnostic, one `RESTORE_STATE`, one
returned handle — and the bit map keeps exactly one entry per distinct id
throughout the poll loop. -/
theorem C9_once_per_distinct_device (env : Env) (l : List Nat) (fuel : Nat)
    (res : Except ResetError (List Nat)) (trace : List Event)
    (harm : isArmPlatform env.platform = false)
    (hfull : full_lds_reset env l fuel = some (res, trace))
    (i : Nat) (hi : i ∈ l) :
    l.dedup.Nodup ∧ l.dedup.toFinset = l.toFinset ∧
    res = .ok l.dedup ∧ l.dedup.count i = 1 ∧
    trace.count (Event.resolveBDF i) = 1 ∧
    trace.count (Event.ioctl i TENSTORRENT_RESET_DEVICE_CONFIG_WRITE) = 1 ∧
    trace.countP (eventIsClassifyFor i) = 1 ∧
    trace.count (Event.ioctl i TENSTORRENT_RESET_DEVICE_RESTORE_STATE) = 1 ∧
    trace.count (Event.mkHandle i) = 1 ∧
    (∀ bmf R early evs,
      pollLoop env l.dedup 0 fuel 0 (l.dedup.map (fun j => (j, 1))) =
        some (bmf, R, early, evs) →
      bmf.map Prod.fst = l.dedup) := by
  obtain ⟨bmf, R, early, evs, hpoll, hres, htrace⟩ :=
    full_lds_reset_inv env l fuel res trace harm hfull
  have hevs : ∀ e ∈ evs, stageOf e = 2 :=
    stage_of_mem_poll env l.dedup 0 fuel 0 _ bmf R early evs hpoll
  have hid : i ∈ l.dedup := List.mem_dedup.mpr hi
  have hone : l.dedup.count i = 1 :=
    List.count_eq_one_of_mem (List.nodup_dedup l) hid
  have hfin : l.dedup.toFinset = l.toFinset := by
    ext a
    simp [List.mem_toFinset, List.mem_dedup]
  subst htrace
  refine ⟨List.nodup_dedup l, hfin, hres, hone, ?_, ?_, ?_, ?_, ?_, ?_⟩
  · simp only [List.count_append]
    rw [count_bdfSeg_resolve, hone,
      List.count_eq_zero_of_not_mem
        (not_mem_of_stage (stage_of_mem_openSeg l.dedup) (by simp [stageOf_resolveBDF])),
      List.count_eq_zero_of_not_mem
        (not_mem_of_stage hevs (by simp [stageOf_resolveBDF])),
      List.count_eq_zero_of_not_mem
        (not_mem_of_stage (stage_of_mem_classifySeg l.dedup bmf) (by simp [stageOf_resolveBDF])),
      List.count_eq_zero_of_not_mem
        (not_mem_of_stage (stage_of_mem_restoreSeg l.dedup) (by simp [stageOf_resolveBDF])),
      List.count_eq_zero_of_not_mem
        (not_mem_of_stage (stage_of_mem_handleSeg l.dedup) (by simp [stageOf_resolveBDF]))]
  · simp only [List.count_append]
    rw [count_bdfSeg_cw, hone,
      List.count_eq_zero_of_not_mem
        (not_mem_of_stage (stage_of_mem_openSeg l.dedup) (by simp [stageOf_cw])),
      List.count_eq_zero_of_not_mem
        (not_mem_of_stage hevs (by simp [stageOf_cw])),
      List.count_eq_zero_of_not_mem
        (not_mem_of_stage (stage_of_mem_classifySeg l.dedup bmf) (by simp [stageOf_cw])),
      List.count_eq_zero_of_not_mem
        (not_mem_of_stage (stage_of_mem_restoreSeg l.dedup) (by simp [stageOf_cw])),
      List.count_eq_zero_of_not_mem
        (not_mem_of_stage (stage_of_mem_handleSeg l.dedup) (by simp [stageOf_cw]))]
  · simp only [List.countP_append]
    rw [countP_classifySeg, hone,
      countP_eq_zero_of_stage (stage_of_mem_bdfSeg_def l.dedup) (by decide),
      countP_eq_zero_of_stage (stage_of_mem_openSeg l.dedup) (by decide),
      countP_eq_zero_of_stage hevs (by decide),
      countP_eq_zero_of_stage (stage_of_mem_restoreSeg l.dedup) (by decide),
      countP_eq_zero_of_stage (stage_of_mem_handleSeg l.dedup) (by decide)]
  · simp only [List.count_append]
    have hinj : ∀ a b : Nat,
        Event.ioctl a TENSTORRENT_RESET_DEVICE_RESTORE_STATE =
          Event.ioctl b TENSTORRENT_RESET_DEVICE_RESTORE_STATE → a = b := by
      intro a b hab
      cases hab
      rfl
    have hrs := count_map_inj
      (fun j => Event.ioctl j TENSTORRENT_RESET_DEVICE_RESTORE_STATE) hinj
      l.dedup i
    unfold restoreSeg
    rw [hrs, hone,
      List.count_eq_zero_of_not_mem
        (not_mem_of_stage (stage_of_mem_bdfSeg_def l.dedup) (by simp [stageOf_restore])),
      List.count_eq_zero_of_not_mem
        (not_mem_of_stage (stage_of_mem_openSeg l.dedup) (by simp [stageOf_restore])),
      List.count_eq_zero_of_not_mem
        (not_mem_of_stage hevs (by simp [stageOf_restore])),
      List.count_eq_zero_of_not_mem
        (not_mem_of_stage (stage_of_mem_classifySeg l.dedup bmf) (by simp [stageOf_restore])),
      List.count_eq_zero_of_not_mem
        (not_mem_of_stage (stage_of_mem_handleSeg l.dedup) (by simp [stageOf_restore]))]
  · simp only [List.count_append]
    have hinj : ∀ a b : Nat, Event.mkHandle a = Event.mkHandle b → a = b := by
      intro a b hab
      cases hab
      rfl
    have hh := count_map_inj Event.mkHandle hinj l.dedup i
    unfold handleSeg
    rw [hh, hone,
      List.count_eq_zero_of_not_mem
        (not_mem_of_stage (stage_of_mem_bdfSeg_def l.dedup) (by simp [stageOf_mkHandle])),
      List.count_eq_zero_of_not_mem
        (not_mem_of_stage (stage_of_mem_openSeg l.dedup) (by simp [stageOf_mkHandle])),
      List.count_eq_zero_of_not_mem
        (not_mem_of_stage hevs (by simp [stageOf_mkHandle])),
      List.count_eq_zero_of_not_mem
        (not_mem_of_stage (stage_of_mem_classifySeg l.dedup bmf) (by simp [stageOf_mkHandle])),
      List.count_eq_zero_of_not_mem
        (not_mem_of_stage (stage_of_mem_restoreSeg l.dedup) (by simp [stageOf_mkHandle]))]
  · intro bmf' R' early' evs' hpoll'
    have hkeys0 : (l.dedup.map (fun j => (j, 1))).map Prod.fst = l.dedup := by
      rw [List.map_map,
        show (Prod.fst ∘ fun j : Nat => (j, 1)) = id from funext fun j => rfl,
        List.map_id]
    have := pollLoop_keys env l.dedup 0 fuel 0 (l.dedup.map (fun j => (j, 1)))
      bmf' R' early' evs' hpoll'
      (fun j hj => by rw [hkeys0]; exact hj)
    rw [this, hkeys0]

/-- x86 host where device 3's config byte is `0x00` (bit 0, reset done)
and every other device's is `0x02` (bit 1, still pending). -/
def scenarioEnv : Env := testEnv (fun i _ => if i = 3 then 0 else 1) 0

/-- Trace of the spec's scenario: input `[3, 3, 5]` on `scenarioEnv`. -/
def scenarioTrace : List Event := traceOf (full_lds_reset scenarioEnv [3, 3, 5] 2)

/-- C9, witness: the scenario input `[3, 3, 5]` dedups to `[3, 5]`, device
3 is classified completed and device 5 not completed, two config-writes
and two restores are issued in total, and the per-distinct-id counting
theorem holds at id 3. -/
theorem C9_once_per_distinct_device_spot :
    ([3, 3, 5] : List Nat).dedup = [3, 5] ∧
    Event.classify 3 true ∈ scenarioTrace ∧
    Event.classify 5 false ∈ scenarioTrace ∧
    scenarioTrace.countP eventIsConfigWrite = 2 ∧
    scenarioTrace.countP eventIsRestore = 2 ∧
    (([3, 3, 5] : List Nat).dedup.Nodup ∧
      ([3, 3, 5] : List Nat).dedup.toFinset = ([3, 3, 5] : List Nat).toFinset ∧
      (Except.ok (([3, 3, 5] : List Nat).dedup) :
        Except ResetError (List Nat)) = .ok (([3, 3, 5] : List Nat).dedup) ∧
      ([3, 3, 5] : List Nat).dedup.count 3 = 1 ∧
      scenarioTrace.count (Event.resolveBDF 3) = 1 ∧
      scenarioTrace.count (Event.ioctl 3 TENSTORRENT_RESET_DEVICE_CONFIG_WRITE) = 1 ∧
      scenarioTrace.countP (eventIsClassifyFor 3) = 1 ∧
      scenarioTrace.count (Event.ioctl 3 TENSTORRENT_RESET_DEVICE_RESTORE_STATE) = 1 ∧
      scenarioTrace.count (Event.mkHandle 3) = 1 ∧
      (∀ bmf R early evs,
        pollLoop scenarioEnv ([3, 3, 5] : List Nat).dedup 0 2 0
          (([3, 3, 5] : List Nat).dedup.map (fun j => (j, 1))) =
          some (bmf, R, early, evs) →
        bmf.map Prod.fst = ([3, 3, 5] : List Nat).dedup)) :=
  ⟨by decide, by decide, by decide, by decide, by decide,
   C9_once_per_distinct_device scenarioEnv [3, 3, 5] 2
     (.ok (([3, 3, 5] : List Nat).dedup)) scenarioTrace
     (by decide) (by decide) 3 (by decide)⟩

/-! ### C3 -/

/-- Device bit reads 0 on round 0 and 1 from round 1 on; the clock allows
exactly two poll rounds. -/
def flickerEnv : Env := testEnv (fun _ r => if r = 0 then 0 else 1) 1

/-- C3, counterexample: the poller observes bit value 0 for device 3 in
round 0, well inside the timeout window (two rounds run), yet because the
entry is overwritten by the round-1 sample the device is classified "not
completed" — observing 0 at some point does NOT imply classification
"completed". -/
theorem C3_observed_zero_refuted :
    readBit flickerEnv 3 0 = 0 ∧
    pollLoop flickerEnv [3] 0 3 0 [(3, 1)] =
      some ([(3, 1)], 2, false,
        [.readCfg 3 1 4, .sleepMs, .readCfg 3 1 4, .sleepMs]) ∧
    Event.classify 3 false ∈ traceOf (full_lds_reset flickerEnv [3] 3) ∧
    Event.classify 3 true ∉ traceOf (full_lds_reset flickerEnv [3] 3) := by
  decide

theorem stageOf_classify (i : Nat) (b : Bool) :
    stageOf (Event.classify i b) = 3 := rfl

/-- C3, amended: a device is classified "completed" (success diagnostic)
if and only if its FINAL sample — the bit read in the last executed poll
round — is 0; in particular a device that never observes 0 within the
timeout window is classified "not completed" (warning diagnostic), and the
batch continues regardless (the trace always carries a classification for
every device). -/
theorem C3_classified_by_final_bit (env : Env) (l : List Nat) (fuel : Nat)
    (res : Except ResetError (List Nat)) (trace : List Event)
    (bmf : List (Nat × Nat)) (R : Nat) (early : Bool) (evs : List Event)
    (harm : isArmPlatform env.platform = false)
    (hfull : full_lds_reset env l fuel = some (res, trace))
    (hpoll : pollLoop env l.dedup 0 fuel 0 (l.dedup.map (fun j => (j, 1))) =
      some (bmf, R, early, evs))
    (i : Nat) (hi : i ∈ l.dedup) :
    (Event.classify i true ∈ trace ↔ readBit env i (R - 1) = 0) ∧
    ((∀ r' < R, readBit env i r' ≠ 0) → Event.classify i false ∈ trace) := by
  obtain ⟨bmf', R', early', evs', hpoll', hres, htrace⟩ :=
    full_lds_reset_inv env l fuel res trace harm hfull
  rw [hpoll] at hpoll'
  simp only [Option.some.injEq, Prod.mk.injEq] at hpoll'
  obtain ⟨hb1, hb2, hb3, hb4⟩ := hpoll'
  subst hb1; subst hb2; subst hb3; subst hb4
  have hevs : ∀ e ∈ evs, stageOf e = 2 :=
    stage_of_mem_poll env l.dedup 0 fuel 0 _ bmf R early evs hpoll
  have hne : l.dedup.length ≠ 0 := by
    intro h0
    rw [List.length_eq_zero.mp h0] at hi
    exact absurd hi (List.not_mem_nil i)
  have hR1 : 1 ≤ R := by
    rcases pollLoop_exit env l.dedup 0 fuel 0 _ bmf R early evs hpoll with
      ⟨-, hlen⟩ | ⟨-, hto⟩
    · exact absurd hlen.symm hne
    · rcases Nat.eq_zero_or_pos R with rfl | h
      · rw [show elapsedBefore env 0 = 0 from rfl,
          POST_RESET_MSG_WAIT_TIME] at hto
        norm_num at hto
      · exact h
  have hfin : lookupBit bmf i = readBit env i (R - 1) := by
    rcases pollLoop_final env l.dedup 0 fuel 0 _ bmf R early evs hpoll with
      ⟨hR0, -⟩ | ⟨-, hf⟩
    · omega
    · exact hf i hi
  have hmem : ∀ b : Bool, (Event.classify i b ∈ trace ↔
      (lookupBit bmf i == 0) = b) := by
    intro b
    rw [htrace]
    simp only [List.mem_append]
    constructor
    · rintro (((((h | h) | h) | h) | h) | h)
      · exact absurd (stage_of_mem_bdfSeg_def l.dedup _ h)
          (by rw [stageOf_classify]; omega)
      · exact absurd (stage_of_mem_openSeg l.dedup _ h)
          (by rw [stageOf_classify]; omega)
      · exact absurd (hevs _ h) (by rw [stageOf_classify]; omega)
      · obtain ⟨j, hj, hjeq⟩ := List.mem_map.mp h
        obtain ⟨rfl, hbeq⟩ : j = i ∧ (lookupBit bmf j == 0) = b := by
          cases hjeq
          exact ⟨rfl, rfl⟩
        exact hbeq
      · exact absurd (stage_of_mem_restoreSeg l.dedup _ h)
          (by rw [stageOf_classify]; omega)
      · exact absurd (stage_of_mem_handleSeg l.dedup _ h)
          (by rw [stageOf_classify]; omega)
    · intro hb
      refine Or.inl (Or.inl (Or.inr ?_))
      unfold classifySeg
      exact List.mem_map.mpr ⟨i, hi, by rw [hb]⟩
  constructor
  · rw [hmem true, hfin]
    constructor
    · intro h
      exact eq_of_beq h
    · intro h
      rw [h]
      rfl
  · intro hnever
    have : readBit env i (R - 1) ≠ 0 := hnever (R - 1) (by omega)
    rw [hmem false, hfin]
    simp [this]

/-- C3, witness: the amended classification theorem applied to the
two-round `flickerEnv` run. -/
theorem C3_classified_by_final_bit_spot :
    (Event.classify 3 true ∈ traceOf (full_lds_reset flickerEnv [3] 3) ↔
      readBit flickerEnv 3 (2 - 1) = 0) ∧
    ((∀ r' < 2, readBit flickerEnv 3 r' ≠ 0) →
      Event.classify 3 false ∈ traceOf (full_lds_reset flickerEnv [3] 3)) :=
  C3_classified_by_final_bit flickerEnv [3] 3 (.ok (([3] : List Nat).dedup))
    (traceOf (full_lds_reset flickerEnv [3] 3)) [(3, 1)] 2 false
    [.readCfg 3 1 4, .sleepMs, .readCfg 3 1 4, .sleepMs]
    (by decide) (by decide) (by decide) 3 (by decide)

/-! ### C4 -/

/-- C4: every event of a poll-loop run is a 1-byte read at byte offset 4
for a device of the batch (or the inter-round sleep); each executed round
reads each device exactly once (per occurrence in the device list); the
stored bit is bit 1 of the byte read, so byte `0x00` yields 0 and `0x02`
yields 1; and after the loop each device's bit-map entry equals the sample
of the LAST executed round — no accumulation of earlier samples. -/
theorem C4_last_sample_wins (env : Env) (devs : List Nat) (c fuel r : Nat)
    (bm bmf : List (Nat × Nat)) (R : Nat) (early : Bool) (evs : List Event)
    (h : pollLoop env devs c fuel r bm = some (bmf, R, early, evs)) :
    (∀ e ∈ evs, (∃ i ∈ devs, e = Event.readCfg i 1 4) ∨ e = Event.sleepMs) ∧
    (∀ i, evs.count (Event.readCfg i 1 4) = (R - r) * devs.count i) ∧
    (∀ envx : Env, ∀ i rx, envx.pread i rx 1 4 = [0x00] →
      readBit envx i rx = 0) ∧
    (∀ envx : Env, ∀ i rx, envx.pread i rx 1 4 = [0x02] →
      readBit envx i rx = 1) ∧
    (r < R → ∀ j ∈ devs, lookupBit bmf j = readBit env j (R - 1)) := by
  obtain ⟨hshape, hcount⟩ :=
    pollLoop_events env devs c fuel r bm bmf R early evs h
  refine ⟨hshape, hcount, ?_, ?_, ?_⟩
  · intro envx i rx hb
    unfold readBit
    rw [hb]
    decide
  · intro envx i rx hb
    unfold readBit
    rw [hb]
    decide
  · intro hlt j hj
    rcases pollLoop_final env devs c fuel r bm bmf R early evs h with
      ⟨hR, -⟩ | ⟨-, hf⟩
    · omega
    · exact hf j hj

/-- C4, witness: the read/overwrite theorem applied to the two-round
`flickerEnv` run: two reads of 1 byte at offset 4, and the final entry is
the round-1 sample. -/
theorem C4_last_sample_wins_spot :
    (∀ e ∈ [Event.readCfg 3 1 4, Event.sleepMs, Event.readCfg 3 1 4,
        Event.sleepMs],
      (∃ i ∈ [3], e = Event.readCfg i 1 4) ∨ e = Event.sleepMs) ∧
    (∀ i, ([Event.readCfg 3 1 4, Event.sleepMs, Event.readCfg 3 1 4,
        Event.sleepMs].count (Event.readCfg i 1 4)) =
      (2 - 0) * ([3] : List Nat).count i) ∧
    (∀ envx : Env, ∀ i rx, envx.pread i rx 1 4 = [0x00] →
      readBit envx i rx = 0) ∧
    (∀ envx : Env, ∀ i rx, envx.pread i rx 1 4 = [0x02] →
      readBit envx i rx = 1) ∧
    (0 < 2 → ∀ j ∈ [3], lookupBit [(3, 1)] j = readBit flickerEnv j (2 - 1)) :=
  C4_last_sample_wins flickerEnv [3] 0 3 0 [(3, 1)] [(3, 1)] 2 false
    [.readCfg 3 1 4, .sleepMs, .readCfg 3 1 4, .sleepMs] (by decide)

end BHReset
